import Mathlib

/-!
Shallow embedding of the GBC 15-puzzle implementation in `src/main.c`
(GBDK-2020 sliding puzzle).

Modelling conventions:
* `uint8_t board[4][4]` becomes `Board := Nat → Nat → Nat`; only the cells
  with both indices `< 4` correspond to array cells of the C program.
* The cached empty-cell coordinate, the move counter and the shuffle
  bookkeeping become fields of explicit state structures.
* `move_count` is a `uint16_t`, so its increment is taken modulo `2 ^ 16`.
* `set_bkg_tile_xy` calls are modelled as elements of a write trace
  (`Wr`).  Writes issued while `VBK_REG = 1` target the attribute layer,
  the others target the content layer.  The program never reads the
  display back, so the screen is fully described by the trace; the final
  attribute layer is recovered with `applyAttr`.
* `rand()` is modelled by an arbitrary list of draws (one entry per loop
  iteration of `shuffle_board`), which covers every seed and every
  pseudo-random sequence.
* `wait_vbl_done`, palette-table loading and similar driver calls have no
  effect on any modelled state and are elided.
-/

namespace Puzzle

/-- `#define GRID_SIZE 4` -/
def GRID_SIZE : Nat := 4
/-- `#define TOTAL_TILES 16` -/
def TOTAL_TILES : Nat := 16
/-- `#define EMPTY_TILE 0` -/
def EMPTY_TILE : Nat := 0
/-- `#define CELL_W 3` -/
def CELL_W : Nat := 3
/-- `#define CELL_H 3` -/
def CELL_H : Nat := 3
/-- `#define GRID_X 4` -/
def GRID_X : Nat := 4
/-- `#define GRID_Y 3` -/
def GRID_Y : Nat := 3
/-- `#define INPUT_DELAY 6` -/
def INPUT_DELAY : Nat := 6
/-- `#define T_BLANK 0` -/
def T_BLANK : Nat := 0
/-- `#define T_NUM_START 10` (tiles 10-18 are the digits 1-9) -/
def T_NUM_START : Nat := 10
/-- `#define T_NUM10_L 19` (two-digit number halves start here) -/
def T_NUM10_L : Nat := 19
/-- `#define T_EMPTY_CELL 31` -/
def T_EMPTY_CELL : Nat := 31
/-- `#define T_TILE_TL 32` -/
def T_TILE_TL : Nat := 32
/-- `#define T_TILE_T 33` -/
def T_TILE_T : Nat := 33
/-- `#define T_TILE_TR 34` -/
def T_TILE_TR : Nat := 34
/-- `#define T_TILE_L 35` -/
def T_TILE_L : Nat := 35
/-- `#define T_TILE_R 36` -/
def T_TILE_R : Nat := 36
/-- `#define T_TILE_BL 37` -/
def T_TILE_BL : Nat := 37
/-- `#define T_TILE_B 38` -/
def T_TILE_B : Nat := 38
/-- `#define T_TILE_BR 39` -/
def T_TILE_BR : Nat := 39

/-- The two background layers selected through `VBK_REG`. -/
inductive Layer where
  | content : Layer
  | attr : Layer
deriving DecidableEq, Repr

/-- One `set_bkg_tile_xy(x, y, v)` call, tagged with the layer that
`VBK_REG` selected at the time of the call. -/
structure Wr where
  layer : Layer
  x : Nat
  y : Nat
  v : Nat
deriving DecidableEq, Repr

/-- `for (i = 0; i < n; i++) { emit (f i) }`: the writes of a counting
loop, in execution order. -/
def forRange (n : Nat) (f : Nat → List Wr) : List Wr :=
  match n with
  | 0 => []
  | m + 1 => forRange m f ++ f m

/-- `uint8_t board[GRID_SIZE][GRID_SIZE]`, as `board r c`.  Only indices
`r < 4`, `c < 4` correspond to cells of the C array. -/
def Board : Type := Nat → Nat → Nat

/-- `board[r][c] = v;` -/
def setCell (b : Board) (r c v : Nat) : Board :=
  fun r0 c0 => if r0 = r ∧ c0 = c then v else b r0 c0

/-- The board together with the cached empty-cell coordinate
(`empty_row`, `empty_col` globals). -/
structure BoardSt where
  board : Board
  empty_row : Nat
  empty_col : Nat

/-- Board state plus the `uint16_t move_count` global: everything
`try_move` touches. -/
structure GameSt where
  board : Board
  empty_row : Nat
  empty_col : Nat
  move_count : Nat

def GameSt.toB (g : GameSt) : BoardSt :=
  ⟨g.board, g.empty_row, g.empty_col⟩

/-- Board state plus the local `last_dir` of `shuffle_board`. -/
structure ShuffleState where
  board : Board
  empty_row : Nat
  empty_col : Nat
  last_dir : Nat

def ShuffleState.toB (s : ShuffleState) : BoardSt :=
  ⟨s.board, s.empty_row, s.empty_col⟩

/-- Number of cells of the 4x4 board holding value `v` (cell `(r, c)` is
encoded as index `4 * r + c`). -/
def cellOcc (b : Board) (v : Nat) : Nat :=
  ∑ i ∈ Finset.range 16, if b (i / 4) (i % 4) = v then 1 else 0

/-- The state invariant of the program: the 16 cells hold each identifier
`0..15` exactly once, the cached empty coordinate is on the grid, and the
cell it names holds `0`. -/
def BoardInv (s : BoardSt) : Prop :=
  (∀ v < 16, cellOcc s.board v = 1) ∧
    s.empty_row < 4 ∧ s.empty_col < 4 ∧ s.board s.empty_row s.empty_col = 0

/-- `get_tile_palette` from `main.c`. -/
def get_tile_palette (tile_num : Nat) : Nat :=
  if tile_num = 0 then 5
  else if tile_num ≤ 4 then 1
  else if tile_num ≤ 8 then 2
  else if tile_num ≤ 12 then 3
  else 4

/-- The tile index `put_char` selects for the (unsigned, 8-bit)
character code `c`: digit characters map to the digit tiles (`'0'` to
tile `T_NUM10_L + 1 = 20`, `'1'..'9'` to tiles `10..18`), everything
else to `T_BLANK`. -/
def charTile (c : Nat) : Nat :=
  if 48 ≤ c ∧ c ≤ 57 then
    if c - 48 = 0 then T_NUM10_L + 1 else T_NUM_START + (c - 48) - 1
  else T_BLANK

/-- `put_char` from `main.c`. -/
def put_char (x y c : Nat) : List Wr :=
  [⟨Layer.content, x, y, charTile c⟩]

/-- `put_number` from `main.c`.  `hundreds` is a `uint8_t`, hence the
`% 256`; `'0' + d` is the 8-bit character code `(48 + d) % 256`. -/
def put_number (x y num : Nat) : List Wr :=
  let hundreds := (num / 100) % 256
  let tens := (num / 10) % 10
  let ones := num % 10
  if hundreds > 0 then
    put_char x y ((48 + hundreds) % 256) ++
      put_char (x + 1) y (48 + tens) ++ put_char (x + 2) y (48 + ones)
  else if tens > 0 then
    [⟨Layer.content, x, y, T_BLANK⟩] ++
      put_char (x + 1) y (48 + tens) ++ put_char (x + 2) y (48 + ones)
  else
    [⟨Layer.content, x, y, T_BLANK⟩, ⟨Layer.content, x + 1, y, T_BLANK⟩] ++
      put_char (x + 2) y (48 + ones)

/-- The tile `put_number` leaves at the hundreds position (read off the
branches of `put_number`). -/
def hundredsTile (num : Nat) : Nat :=
  if (num / 100) % 256 > 0 then charTile ((48 + (num / 100) % 256) % 256) else T_BLANK

/-- The tile `put_number` leaves at the tens position (read off the
branches of `put_number`). -/
def tensTile (num : Nat) : Nat :=
  if (num / 100) % 256 > 0 ∨ (num / 10) % 10 > 0 then charTile (48 + (num / 10) % 10)
  else T_BLANK

/-- The attribute-layer 3x3 block loop shared by `draw_cell` and
`win_animation`: `VBK_REG = 1; for r, c: set_bkg_tile_xy(sx+c, sy+r, pal)`. -/
def cellAttrBlock (gx gy pal : Nat) : List Wr :=
  forRange CELL_H fun r => forRange CELL_W fun c =>
    [⟨Layer.attr, GRID_X + gx * CELL_W + c, GRID_Y + gy * CELL_H + r, pal⟩]

/-- The eight border writes of the non-empty branch of `draw_cell`. -/
def tile_border (sx sy : Nat) : List Wr :=
  [⟨Layer.content, sx, sy, T_TILE_TL⟩,
   ⟨Layer.content, sx + 1, sy, T_TILE_T⟩,
   ⟨Layer.content, sx + 2, sy, T_TILE_TR⟩,
   ⟨Layer.content, sx, sy + 1, T_TILE_L⟩,
   ⟨Layer.content, sx + 2, sy + 1, T_TILE_R⟩,
   ⟨Layer.content, sx, sy + 2, T_TILE_BL⟩,
   ⟨Layer.content, sx + 1, sy + 2, T_TILE_B⟩,
   ⟨Layer.content, sx + 2, sy + 2, T_TILE_BR⟩]

/-- `draw_cell(gx, gy)` from `main.c` (note the argument order: `gx` is
the column, `gy` the row; it displays `board[gy][gx]`). -/
def draw_cell (b : Board) (gx gy : Nat) : List Wr :=
  let tile_num := b gy gx
  let sx := GRID_X + gx * CELL_W
  let sy := GRID_Y + gy * CELL_H
  let pal := get_tile_palette tile_num
  cellAttrBlock gx gy pal ++
    (if tile_num = 0 then
      forRange CELL_H fun r => forRange CELL_W fun c =>
        [⟨Layer.content, sx + c, sy + r, T_EMPTY_CELL⟩]
    else
      tile_border sx sy ++
        (if tile_num ≤ 9 then
          [⟨Layer.content, sx + 1, sy + 1, T_NUM_START + tile_num - 1⟩]
        else
          let pair_base := T_NUM10_L + (tile_num - 10) * 2
          [⟨Layer.content, sx, sy + 1, T_TILE_L⟩,
           ⟨Layer.content, sx + 1, sy + 1, pair_base⟩,
           ⟨Layer.content, sx + 2, sy + 1, pair_base + 1⟩]))

/-- `draw_hud` from `main.c`: the HUD row is
`GRID_Y + GRID_SIZE * CELL_H + 2 = 17`. -/
def draw_hud (mc : Nat) : List Wr :=
  let y := GRID_Y + GRID_SIZE * CELL_H + 2
  (forRange 8 fun i => [⟨Layer.attr, GRID_X + i, y, 7⟩]) ++
    put_number (GRID_X + 1) y mc

/-- `check_win` from `main.c`: row-major scan against the incrementing
`expected` counter, whose value at the non-last cell `(r, c)` is
`4 * r + c + 1`. -/
def check_win (b : Board) : Bool :=
  (List.range GRID_SIZE).all fun r => (List.range GRID_SIZE).all fun c =>
    if r = GRID_SIZE - 1 ∧ c = GRID_SIZE - 1 then b r c == EMPTY_TILE
    else b r c == 4 * r + c + 1

/-- `try_move(from_r, from_c)` from `main.c`.  Returns the `uint8_t`
result as a `Bool`, the new global state, and the display writes it
issued (`draw_cell` on the old and new empty cell, then `draw_hud`).
The `int8_t` differences `dr`, `dc` are exact on `Int` for the
coordinate values (< 128) the program uses. -/
def try_move (g : GameSt) (from_r from_c : Nat) : Bool × GameSt × List Wr :=
  let dr : Int := (g.empty_row : Int) - (from_r : Int)
  let dc : Int := (g.empty_col : Int) - (from_c : Int)
  if (dr = 0 ∧ (dc = 1 ∨ dc = -1)) ∨ (dc = 0 ∧ (dr = 1 ∨ dr = -1)) then
    let b1 := setCell g.board g.empty_row g.empty_col (g.board from_r from_c)
    let b2 := setCell b1 from_r from_c EMPTY_TILE
    let old_er := g.empty_row
    let old_ec := g.empty_col
    let mc := (g.move_count + 1) % 65536
    (true, ⟨b2, from_r, from_c, mc⟩,
      draw_cell b2 old_ec old_er ++ draw_cell b2 from_c from_r ++ draw_hud mc)
  else
    (false, g, [])

/-- `init_board` from `main.c`: `board[r][c] = val++` over the row-major
scan gives `4 * r + c + 1`, the last cell gets `EMPTY_TILE`, and the
empty coordinate is cached as `(3, 3)`.  (Indices outside the 4x4 array
do not correspond to C state; the formula merely totalises the model.) -/
def init_board : BoardSt :=
  ⟨fun r c => if r = 3 ∧ c = 3 then EMPTY_TILE else 4 * r + c + 1, 3, 3⟩

/-- One iteration of the `for` loop of `shuffle_board` on the drawn
byte `draw`: `dir = draw & 0x03`, skip when `dir ^ last_dir == 0x01`,
otherwise attempt the bounded empty-cell slide of the drawn case. -/
def shuffleStep (s : ShuffleState) (draw : Nat) : ShuffleState :=
  let dir := draw &&& 3
  if dir ^^^ s.last_dir = 1 then s
  else if dir = 0 then
    if s.empty_row > 0 then
      ⟨setCell (setCell s.board s.empty_row s.empty_col
          (s.board (s.empty_row - 1) s.empty_col)) (s.empty_row - 1) s.empty_col EMPTY_TILE,
        s.empty_row - 1, s.empty_col, dir⟩
    else s
  else if dir = 1 then
    if s.empty_row < GRID_SIZE - 1 then
      ⟨setCell (setCell s.board s.empty_row s.empty_col
          (s.board (s.empty_row + 1) s.empty_col)) (s.empty_row + 1) s.empty_col EMPTY_TILE,
        s.empty_row + 1, s.empty_col, dir⟩
    else s
  else if dir = 2 then
    if s.empty_col > 0 then
      ⟨setCell (setCell s.board s.empty_row s.empty_col
          (s.board s.empty_row (s.empty_col - 1))) s.empty_row (s.empty_col - 1) EMPTY_TILE,
        s.empty_row, s.empty_col - 1, dir⟩
    else s
  else
    if s.empty_col < GRID_SIZE - 1 then
      ⟨setCell (setCell s.board s.empty_row s.empty_col
          (s.board s.empty_row (s.empty_col + 1))) s.empty_row (s.empty_col + 1) EMPTY_TILE,
        s.empty_row, s.empty_col + 1, dir⟩
    else s

/-- The iterations of `shuffle_board`, one list entry per drawn
pseudo-random byte. -/
def shuffleRun (s : ShuffleState) : List Nat → ShuffleState
  | [] => s
  | d :: ds => shuffleRun (shuffleStep s d) ds

/-- `shuffle_board` run on board state `bs` with the pseudo-random byte
sequence `draws` (in `main.c` the sequence has 200 entries and the local
`last_dir` starts at `0xFF`). -/
def shuffle_board (bs : BoardSt) (draws : List Nat) : BoardSt :=
  (shuffleRun ⟨bs.board, bs.empty_row, bs.empty_col, 255⟩ draws).toB

/-- The directions of the *accepted* iterations of a `shuffle_board`
run: the iterations that actually move the empty cell. -/
def shuffleAccepted (s : ShuffleState) : List Nat → List Nat
  | [] => []
  | d :: ds =>
    let s1 := shuffleStep s d
    if s1.empty_row = s.empty_row ∧ s1.empty_col = s.empty_col then
      shuffleAccepted s1 ds
    else
      (d &&& 3) :: shuffleAccepted s1 ds

/-- One flash beat of `win_animation` (loop index `i`): paints every
cell's 3x3 attribute block with the gold palette 6 on even beats and
with the cell's normal palette on odd beats. -/
def win_beat (b : Board) (i : Nat) : List Wr :=
  forRange GRID_SIZE fun gy => forRange GRID_SIZE fun gx =>
    cellAttrBlock gx gy (if i &&& 1 = 1 then get_tile_palette (b gy gx) else 6)

/-- `win_animation` from `main.c`: six beats; the ~20-frame waits issue
no writes.  The board is only read, never assigned. -/
def win_animation (b : Board) : List Wr :=
  forRange 6 fun i => win_beat b i

/-- The attribute layer obtained by replaying a write trace on top of an
initial attribute layer `a` (content-layer writes do not affect it). -/
def applyAttr (a : Nat × Nat → Nat) : List Wr → (Nat × Nat → Nat)
  | [] => a
  | w :: ws =>
    applyAttr (fun q => if w.layer = Layer.attr ∧ q = (w.x, w.y) then w.v else a q) ws

/-- The value of the last attribute-layer write targeting point `p` in a
trace, if any. -/
def lastWrite : List Wr → Nat × Nat → Option Nat
  | [], _ => none
  | w :: ws, p =>
    match lastWrite ws p with
    | some v => some v
    | none => if w.layer = Layer.attr ∧ p = (w.x, w.y) then some w.v else none

/-- The per-tick snapshot of the held buttons that the session loop
reads through `joypad()`. -/
structure Keys where
  up : Bool
  down : Bool
  left : Bool
  right : Bool
  a : Bool
  sel : Bool
deriving DecidableEq, Repr

/-- The session state owned by the game loop in `main`. -/
structure Sess where
  g : GameSt
  cursor_row : Nat
  cursor_col : Nat
  game_won : Bool
  input_cooldown : Nat

/-- The action-button block of the game loop of `main` (the `J_A` and
`J_SELECT` blocks are textually identical, so they share this one
embedding).  When `pressed` holds and the cursor cell is non-empty it
calls `try_move` at the cursor; on success it re-evaluates the win
predicate (only ever setting `game_won` to 1).  Each issued `try_move`
call is recorded as the value of `game_won` at the moment of the
call. -/
def actBranch (pressed : Bool) (s : Sess) : Sess × List Bool :=
  if pressed = true then
    if s.g.board s.cursor_row s.cursor_col ≠ EMPTY_TILE then
      let tm := try_move s.g s.cursor_row s.cursor_col
      if tm.1 = true then
        let won1 := if check_win tm.2.1.board = true then true else s.game_won
        ({ s with g := tm.2.1, game_won := won1, input_cooldown := INPUT_DELAY },
          [s.game_won])
      else
        ({ s with input_cooldown := INPUT_DELAY }, [s.game_won])
    else
      ({ s with input_cooldown := INPUT_DELAY }, [])
  else (s, [])

/-- One iteration of the in-progress game loop body of `main` (after
`wait_vbl_done`).  Returns the new session state together with the list
of `try_move` invocations this tick issued, each recorded as the value
of the `game_won` flag at the moment of the call.  Display writes
(`draw_cursor` and the writes inside `try_move`) affect no game state
and are not collected here. -/
def tick (s : Sess) (k : Keys) : Sess × List Bool :=
  if s.input_cooldown > 0 then
    ({ s with input_cooldown := s.input_cooldown - 1 }, [])
  else
    let s1 :=
      if k.up = true ∨ k.down = true ∨ k.left = true ∨ k.right = true then
        let cr1 := if k.up = true ∧ s.cursor_row > 0 then s.cursor_row - 1 else s.cursor_row
        let cr2 := if k.down = true ∧ cr1 < GRID_SIZE - 1 then cr1 + 1 else cr1
        let cc1 := if k.left = true ∧ s.cursor_col > 0 then s.cursor_col - 1 else s.cursor_col
        let cc2 := if k.right = true ∧ cc1 < GRID_SIZE - 1 then cc1 + 1 else cc1
        { s with cursor_row := cr2, cursor_col := cc2, input_cooldown := INPUT_DELAY }
      else s
    let step2 := actBranch k.a s1
    let step3 := actBranch k.sel step2.1
    (step3.1, step2.2 ++ step3.2)

/-- The `while (!game_won)` loop of `main` over a list of per-tick input
snapshots, collecting every `try_move` invocation (tagged with the
`game_won` value at the call).  The loop exits as soon as `game_won`
holds; the session is only reinitialised afterwards, outside this
loop. -/
def runTicks (s : Sess) : List Keys → Sess × List Bool
  | [] => (s, [])
  | k :: ks =>
    if s.game_won = true then (s, [])
    else
      let t := tick s k
      let r := runTicks t.1 ks
      (r.1, t.2 ++ r.2)

/-- Cardinal adjacency on grid coordinates: Manhattan distance exactly
one (same row or same column). -/
def cardAdjacent (er ec r c : Nat) : Prop :=
  (er = r ∧ (ec = c + 1 ∨ c = ec + 1)) ∨ (ec = c ∧ (er = r + 1 ∨ r = er + 1))

/-- A legal slide: the tile at an on-grid cell cardinally adjacent to
the empty cell moves into the empty cell. -/
def slides (s t : BoardSt) : Prop :=
  ∃ fr fc, fr < 4 ∧ fc < 4 ∧ cardAdjacent s.empty_row s.empty_col fr fc ∧
    t = ⟨setCell (setCell s.board s.empty_row s.empty_col (s.board fr fc)) fr fc EMPTY_TILE,
          fr, fc⟩

/-- Write `w` targets the 3x3 screen block of the logical grid cell at
row `gr`, column `gc`. -/
def inBlock (gr gc : Nat) (w : Wr) : Prop :=
  GRID_X + gc * CELL_W ≤ w.x ∧ w.x < GRID_X + gc * CELL_W + CELL_W ∧
    GRID_Y + gr * CELL_H ≤ w.y ∧ w.y < GRID_Y + gr * CELL_H + CELL_H

/-- The content tile `put_char` uses for decimal digit `d` (`0` has its
glyph at `T_NUM10_L + 1 = 20`, digits `1..9` at tiles `10..18`). -/
def glyph (d : Nat) : Nat :=
  if d = 0 then T_NUM10_L + 1 else T_NUM_START + d - 1

/-- The board obtained from `b` by exchanging the contents of cells
`(r1, c1)` and `(r2, c2)` (used to state the single-swap perturbation
part of the `check_win` claim). -/
def swapCells (b : Board) (r1 c1 r2 c2 : Nat) : Board :=
  fun r c =>
    if r = r1 ∧ c = c1 then b r2 c2
    else if r = r2 ∧ c = c2 then b r1 c1
    else b r c

/-- The 4x4 part of `b` is exactly the solved arrangement
`[[1,2,3,4],[5,6,7,8],[9,10,11,12],[13,14,15,0]]`. -/
def isSolvedArrangement (b : Board) : Prop :=
  ∀ r < 4, ∀ c < 4, b r c = (if r = 3 ∧ c = 3 then 0 else 4 * r + c + 1)

/-- A concrete game state: solved board, empty cached at `(3, 3)`,
session counters at zero. -/
def gSolved : GameSt :=
  ⟨init_board.board, 3, 3, 0⟩

/-- A concrete game state whose 16-bit move counter sits at its maximum
value `65535`. -/
def gMaxCount : GameSt :=
  ⟨init_board.board, 3, 3, 65535⟩

/-- A concrete board holding the two-digit identifier `10` at cell
`(0, 0)`. -/
def bTen : Board :=
  fun r c => if r = 0 ∧ c = 0 then 10 else if r = 3 ∧ c = 3 then 0 else 4 * r + c + 1

/-- A concrete session state: solved board, cursor on the tile at
`(3, 2)` (cardinally adjacent to the empty cell), game in progress. -/
def sessW : Sess :=
  ⟨gSolved, 3, 2, false, 0⟩

/-- A concrete key snapshot holding only the A button. -/
def keysA : Keys :=
  ⟨false, false, false, false, true, false⟩

instance (s : BoardSt) : Decidable (BoardInv s) := by
  unfold BoardInv; infer_instance

instance (er ec r c : Nat) : Decidable (cardAdjacent er ec r c) := by
  unfold cardAdjacent; infer_instance

instance (gr gc : Nat) (w : Wr) : Decidable (inBlock gr gc w) := by
  unfold inBlock; infer_instance

instance (b : Board) : Decidable (isSolvedArrangement b) := by
  unfold isSolvedArrangement; infer_instance

/-! ## Helper lemmas -/

theorem mem_forRange {f : Nat → List Wr} {w : Wr} :
    ∀ {n : Nat}, w ∈ forRange n f ↔ ∃ i, i < n ∧ w ∈ f i := by
  intro n
  induction n with
  | zero => simp [forRange]
  | succ m ih =>
    simp only [forRange, List.mem_append, ih]
    constructor
    · rintro (⟨i, hi, hw⟩ | hw)
      · exact ⟨i, by omega, hw⟩
      · exact ⟨m, by omega, hw⟩
    · rintro ⟨i, hi, hw⟩
      rcases Nat.lt_or_ge i m with h | h
      · exact Or.inl ⟨i, h, hw⟩
      · have : i = m := by omega
        exact Or.inr (this ▸ hw)

theorem setCell_same (b : Board) (r c v : Nat) : setCell b r c v r c = v := by
  simp [setCell]

theorem setCell_other (b : Board) (r c v r0 c0 : Nat) (h : ¬(r0 = r ∧ c0 = c)) :
    setCell b r c v r0 c0 = b r0 c0 := by
  simp only [setCell, if_neg h]

theorem cellOcc_swapTwo (b : Board) (er ec fr fc : Nat)
    (her : er < 4) (hec : ec < 4) (hfr : fr < 4) (hfc : fc < 4)
    (hne : ¬(er = fr ∧ ec = fc)) (v : Nat) :
    cellOcc (setCell (setCell b er ec (b fr fc)) fr fc (b er ec)) v = cellOcc b v := by
  classical
  unfold cellOcc
  have ha : 4 * er + ec ∈ Finset.range 16 := by
    simp only [Finset.mem_range]; omega
  have hab : 4 * er + ec ≠ 4 * fr + fc := by omega
  have hbmem : 4 * fr + fc ∈ (Finset.range 16).erase (4 * er + ec) :=
    Finset.mem_erase.mpr ⟨hab.symm, by simp only [Finset.mem_range]; omega⟩
  have key : ∀ g : Nat → Nat,
      ∑ i ∈ Finset.range 16, g i =
        g (4 * er + ec) + (g (4 * fr + fc) +
          ∑ i ∈ ((Finset.range 16).erase (4 * er + ec)).erase (4 * fr + fc), g i) := by
    intro g
    rw [← Finset.add_sum_erase _ g ha, ← Finset.add_sum_erase _ g hbmem]
  rw [key, key]
  have hdra : (4 * er + ec) / 4 = er := by omega
  have hdca : (4 * er + ec) % 4 = ec := by omega
  have hdrb : (4 * fr + fc) / 4 = fr := by omega
  have hdcb : (4 * fr + fc) % 4 = fc := by omega
  have hv1 : setCell (setCell b er ec (b fr fc)) fr fc (b er ec) er ec = b fr fc := by
    rw [setCell_other _ _ _ _ _ _ (by tauto), setCell_same]
  have hv2 : setCell (setCell b er ec (b fr fc)) fr fc (b er ec) fr fc = b er ec :=
    setCell_same _ _ _ _
  rw [hdra, hdca, hdrb, hdcb, hv1, hv2]
  have hrest :
      ∑ i ∈ ((Finset.range 16).erase (4 * er + ec)).erase (4 * fr + fc),
          (if setCell (setCell b er ec (b fr fc)) fr fc (b er ec) (i / 4) (i % 4) = v then 1 else 0) =
        ∑ i ∈ ((Finset.range 16).erase (4 * er + ec)).erase (4 * fr + fc),
          (if b (i / 4) (i % 4) = v then 1 else 0) := by
    refine Finset.sum_congr rfl ?_
    intro i hi
    have hi1 : i ≠ 4 * fr + fc := (Finset.mem_erase.mp hi).1
    have hi2 : i ≠ 4 * er + ec := (Finset.mem_erase.mp (Finset.mem_erase.mp hi).2).1
    have hi3 : i < 16 := Finset.mem_range.mp (Finset.mem_erase.mp (Finset.mem_erase.mp hi).2).2
    have hne1 : ¬(i / 4 = fr ∧ i % 4 = fc) := by omega
    have hne2 : ¬(i / 4 = er ∧ i % 4 = ec) := by omega
    rw [setCell_other _ _ _ _ _ _ hne1, setCell_other _ _ _ _ _ _ hne2]
  rw [hrest]
  omega

/-- The board mutation common to the success branch of `try_move` and to
the accepted cases of `shuffle_board` preserves the state invariant. -/
theorem BoardInv_move (s : BoardSt) (fr fc : Nat) (h : BoardInv s)
    (hfr : fr < 4) (hfc : fc < 4) (hne : ¬(s.empty_row = fr ∧ s.empty_col = fc)) :
    BoardInv ⟨setCell (setCell s.board s.empty_row s.empty_col (s.board fr fc)) fr fc EMPTY_TILE,
      fr, fc⟩ := by
  obtain ⟨hocc, her, hec, h0⟩ := h
  have hz : EMPTY_TILE = s.board s.empty_row s.empty_col := by rw [h0]; rfl
  refine ⟨?_, hfr, hfc, ?_⟩
  · intro v hv
    have hs := cellOcc_swapTwo s.board s.empty_row s.empty_col fr fc her hec hfr hfc hne v
    rw [hz]
    rw [hs]
    exact hocc v hv
  · show setCell _ fr fc EMPTY_TILE fr fc = 0
    rw [setCell_same]
    rfl

/-- Dichotomy for one `shuffle_board` iteration: either the state is
completely unchanged (xor-rejected or boundary-skipped), or the
iteration was accepted: the drawn direction was not the opposite of
`last_dir`, it became the new `last_dir`, and the empty cell moved. -/
theorem shuffleStep_cases (s : ShuffleState) (d : Nat) :
    shuffleStep s d = s ∨
      ((d &&& 3) ^^^ s.last_dir ≠ 1 ∧ (shuffleStep s d).last_dir = d &&& 3 ∧
        ¬((shuffleStep s d).empty_row = s.empty_row ∧
          (shuffleStep s d).empty_col = s.empty_col)) := by
  have hdir : d &&& 3 ≤ 3 := Nat.and_le_right
  simp only [shuffleStep]
  by_cases h1 : (d &&& 3) ^^^ s.last_dir = 1
  · rw [if_pos h1]; exact Or.inl rfl
  · rw [if_neg h1]
    by_cases h2 : d &&& 3 = 0
    · rw [if_pos h2]
      by_cases h3 : s.empty_row > 0
      · rw [if_pos h3]; right; exact ⟨h1, rfl, by dsimp only; omega⟩
      · rw [if_neg h3]; exact Or.inl rfl
    · rw [if_neg h2]
      by_cases h4 : d &&& 3 = 1
      · rw [if_pos h4]
        by_cases h5 : s.empty_row < GRID_SIZE - 1
        · rw [if_pos h5]; right; exact ⟨h1, rfl, by dsimp only; omega⟩
        · rw [if_neg h5]; exact Or.inl rfl
      · rw [if_neg h4]
        by_cases h6 : d &&& 3 = 2
        · rw [if_pos h6]
          by_cases h7 : s.empty_col > 0
          · rw [if_pos h7]; right; exact ⟨h1, rfl, by dsimp only; omega⟩
          · rw [if_neg h7]; exact Or.inl rfl
        · rw [if_neg h6]
          by_cases h8 : s.empty_col < GRID_SIZE - 1
          · rw [if_pos h8]; right; exact ⟨h1, rfl, by dsimp only; omega⟩
          · rw [if_neg h8]; exact Or.inl rfl

/-- On on-grid states, one `shuffle_board` iteration either leaves the
board state unchanged or performs a legal slide. -/
theorem shuffleStep_toB (s : ShuffleState) (d : Nat)
    (her : s.empty_row < 4) (hec : s.empty_col < 4) :
    (shuffleStep s d).toB = s.toB ∨ slides s.toB (shuffleStep s d).toB := by
  simp only [shuffleStep]
  by_cases h1 : (d &&& 3) ^^^ s.last_dir = 1
  · rw [if_pos h1]; exact Or.inl rfl
  · rw [if_neg h1]
    by_cases h2 : d &&& 3 = 0
    · rw [if_pos h2]
      by_cases h3 : s.empty_row > 0
      · rw [if_pos h3]
        exact Or.inr ⟨s.empty_row - 1, s.empty_col, by omega, hec,
          by unfold cardAdjacent; dsimp only [ShuffleState.toB]; omega, rfl⟩
      · rw [if_neg h3]; exact Or.inl rfl
    · rw [if_neg h2]
      by_cases h4 : d &&& 3 = 1
      · rw [if_pos h4]
        by_cases h5 : s.empty_row < GRID_SIZE - 1
        · rw [if_pos h5]
          exact Or.inr ⟨s.empty_row + 1, s.empty_col,
            by unfold GRID_SIZE at h5; omega, hec,
            by unfold cardAdjacent; dsimp only [ShuffleState.toB]; omega, rfl⟩
        · rw [if_neg h5]; exact Or.inl rfl
      · rw [if_neg h4]
        by_cases h6 : d &&& 3 = 2
        · rw [if_pos h6]
          by_cases h7 : s.empty_col > 0
          · rw [if_pos h7]
            exact Or.inr ⟨s.empty_row, s.empty_col - 1, her, by omega,
              by unfold cardAdjacent; dsimp only [ShuffleState.toB]; omega, rfl⟩
          · rw [if_neg h7]; exact Or.inl rfl
        · rw [if_neg h6]
          by_cases h8 : s.empty_col < GRID_SIZE - 1
          · rw [if_pos h8]
            exact Or.inr ⟨s.empty_row, s.empty_col + 1, her,
              by unfold GRID_SIZE at h8; omega,
              by unfold cardAdjacent; dsimp only [ShuffleState.toB]; omega, rfl⟩
          · rw [if_neg h8]; exact Or.inl rfl

/-- Legal slides preserve the state invariant. -/
theorem BoardInv_slides {s t : BoardSt} (h : BoardInv s) (hst : slides s t) :
    BoardInv t := by
  obtain ⟨fr, fc, hfr, hfc, hadj, ht⟩ := hst
  subst ht
  exact BoardInv_move s fr fc h hfr hfc (by unfold cardAdjacent at hadj; omega)

theorem BoardInv_shuffleStep (s : ShuffleState) (d : Nat) (h : BoardInv s.toB) :
    BoardInv (shuffleStep s d).toB := by
  rcases shuffleStep_toB s d h.2.1 h.2.2.1 with he | hs
  · rw [he]; exact h
  · exact BoardInv_slides h hs

theorem BoardInv_shuffleRun (draws : List Nat) :
    ∀ s : ShuffleState, BoardInv s.toB → BoardInv (shuffleRun s draws).toB := by
  induction draws with
  | nil => intro s h; exact h
  | cons d ds ih =>
    intro s h
    exact ih (shuffleStep s d) (BoardInv_shuffleStep s d h)

/-- Legal slides can be undone by a legal slide (on invariant states). -/
theorem slides_symm {s t : BoardSt} (h : BoardInv s) (hst : slides s t) :
    slides t s := by
  obtain ⟨hocc, her, hec, h0⟩ := h
  obtain ⟨fr, fc, hfr, hfc, hadj, ht⟩ := hst
  have hne : ¬(s.empty_row = fr ∧ s.empty_col = fc) := by
    unfold cardAdjacent at hadj; omega
  refine ⟨s.empty_row, s.empty_col, her, hec, ?_, ?_⟩
  · rw [ht]
    unfold cardAdjacent at hadj ⊢
    dsimp only
    omega
  · rw [ht]
    dsimp only
    have hB : setCell (setCell s.board s.empty_row s.empty_col (s.board fr fc)) fr fc EMPTY_TILE
        s.empty_row s.empty_col = s.board fr fc := by
      rw [setCell_other _ _ _ _ _ _ hne, setCell_same]
    rw [hB]
    have hN : setCell (setCell (setCell (setCell s.board s.empty_row s.empty_col
          (s.board fr fc)) fr fc EMPTY_TILE) fr fc (s.board fr fc))
          s.empty_row s.empty_col EMPTY_TILE = s.board := by
      funext r0 c0
      by_cases hc1 : r0 = s.empty_row ∧ c0 = s.empty_col
      · rw [hc1.1, hc1.2, setCell_same, h0]
        rfl
      · rw [setCell_other _ _ _ _ _ _ hc1]
        by_cases hc2 : r0 = fr ∧ c0 = fc
        · rw [hc2.1, hc2.2, setCell_same]
        · rw [setCell_other _ _ _ _ _ _ hc2, setCell_other _ _ _ _ _ _ hc2,
            setCell_other _ _ _ _ _ _ hc1]
    rw [hN]

theorem BoardInv_rtg {s t : BoardSt} (h : BoardInv s)
    (hst : Relation.ReflTransGen slides s t) : BoardInv t := by
  induction hst with
  | refl => exact h
  | tail _ hbc ih => exact BoardInv_slides ih hbc

/-- On invariant states, slide-reachability is symmetric: any chain of
legal slides can be walked back. -/
theorem rtg_slides_symm {s t : BoardSt} (h : BoardInv s)
    (hst : Relation.ReflTransGen slides s t) :
    Relation.ReflTransGen slides t s := by
  induction hst with
  | refl => exact Relation.ReflTransGen.refl
  | tail hab hbc ih =>
    exact Relation.ReflTransGen.head (slides_symm (BoardInv_rtg h hab) hbc) ih

theorem shuffleRun_rtg (draws : List Nat) :
    ∀ s : ShuffleState, BoardInv s.toB →
      Relation.ReflTransGen slides s.toB (shuffleRun s draws).toB := by
  induction draws with
  | nil => intro s _; exact Relation.ReflTransGen.refl
  | cons d ds ih =>
    intro s h
    have hstep := shuffleStep_toB s d h.2.1 h.2.2.1
    have hinv1 := BoardInv_shuffleStep s d h
    rcases hstep with he | hs
    · have := ih (shuffleStep s d) hinv1
      rw [he] at this
      exact this
    · exact Relation.ReflTransGen.head hs (ih (shuffleStep s d) hinv1)

/-- The invariant of the solved board, usable without kernel evaluation. -/
theorem BoardInv_init : BoardInv init_board := by decide

theorem check_win_true_iff (b : Board) :
    check_win b = true ↔ isSolvedArrangement b := by
  unfold check_win isSolvedArrangement GRID_SIZE EMPTY_TILE
  simp only [List.all_eq_true, List.mem_range, beq_iff_eq]
  constructor
  · intro h r hr c hc
    have hrc := h r hr c hc
    by_cases h3 : r = 3 ∧ c = 3
    · have h3n : r = 4 - 1 ∧ c = 4 - 1 := by omega
      rw [if_pos h3n] at hrc
      rw [if_pos h3]
      simpa using hrc
    · have h3n : ¬(r = 4 - 1 ∧ c = 4 - 1) := by omega
      rw [if_neg h3n] at hrc
      rw [if_neg h3]
      simpa using hrc
  · intro h r hr c hc
    have hrc := h r hr c hc
    by_cases h3 : r = 3 ∧ c = 3
    · have h3n : r = 4 - 1 ∧ c = 4 - 1 := by omega
      rw [if_pos h3n]
      rw [if_pos h3] at hrc
      simpa using hrc
    · have h3n : ¬(r = 4 - 1 ∧ c = 4 - 1) := by omega
      rw [if_neg h3n]
      rw [if_neg h3] at hrc
      simpa using hrc

theorem try_move_eq_pos (g : GameSt) (r c : Nat)
    (hg : ((g.empty_row : Int) - (r : Int) = 0 ∧
        ((g.empty_col : Int) - (c : Int) = 1 ∨ (g.empty_col : Int) - (c : Int) = -1)) ∨
      ((g.empty_col : Int) - (c : Int) = 0 ∧
        ((g.empty_row : Int) - (r : Int) = 1 ∨ (g.empty_row : Int) - (r : Int) = -1))) :
    try_move g r c =
      (true,
        ⟨setCell (setCell g.board g.empty_row g.empty_col (g.board r c)) r c EMPTY_TILE, r, c,
          (g.move_count + 1) % 65536⟩,
        draw_cell (setCell (setCell g.board g.empty_row g.empty_col (g.board r c)) r c EMPTY_TILE)
            g.empty_col g.empty_row ++
          draw_cell (setCell (setCell g.board g.empty_row g.empty_col (g.board r c)) r c EMPTY_TILE)
            c r ++
          draw_hud ((g.move_count + 1) % 65536)) := by
  unfold try_move
  rw [if_pos hg]

theorem try_move_eq_neg (g : GameSt) (r c : Nat)
    (hg : ¬(((g.empty_row : Int) - (r : Int) = 0 ∧
        ((g.empty_col : Int) - (c : Int) = 1 ∨ (g.empty_col : Int) - (c : Int) = -1)) ∨
      ((g.empty_col : Int) - (c : Int) = 0 ∧
        ((g.empty_row : Int) - (r : Int) = 1 ∨ (g.empty_row : Int) - (r : Int) = -1)))) :
    try_move g r c = (false, g, []) := by
  unfold try_move
  rw [if_neg hg]

theorem put_char_shape (x y c : Nat) :
    ∀ w ∈ put_char x y c, w.layer = Layer.content ∧ w.x = x ∧ w.y = y := by
  intro w hw
  simp only [put_char, List.mem_singleton] at hw
  subst hw
  exact ⟨rfl, rfl, rfl⟩

theorem put_number_shape (x y n : Nat) :
    ∀ w ∈ put_number x y n,
      w.layer = Layer.content ∧ (w.x = x ∨ w.x = x + 1 ∨ w.x = x + 2) ∧ w.y = y := by
  intro w hw
  simp only [put_number] at hw
  by_cases h1 : (n / 100) % 256 > 0
  · rw [if_pos h1] at hw
    rcases List.mem_append.mp hw with hw2 | hw2
    · rcases List.mem_append.mp hw2 with hw3 | hw3
      · obtain ⟨hl, hx, hy⟩ := put_char_shape _ _ _ w hw3
        exact ⟨hl, Or.inl hx, hy⟩
      · obtain ⟨hl, hx, hy⟩ := put_char_shape _ _ _ w hw3
        exact ⟨hl, Or.inr (Or.inl hx), hy⟩
    · obtain ⟨hl, hx, hy⟩ := put_char_shape _ _ _ w hw2
      exact ⟨hl, Or.inr (Or.inr hx), hy⟩
  · rw [if_neg h1] at hw
    by_cases h2 : (n / 10) % 10 > 0
    · rw [if_pos h2] at hw
      rcases List.mem_append.mp hw with hw2 | hw2
      · rcases List.mem_append.mp hw2 with hw3 | hw3
        · rw [List.mem_singleton] at hw3
          subst hw3
          exact ⟨rfl, Or.inl rfl, rfl⟩
        · obtain ⟨hl, hx, hy⟩ := put_char_shape _ _ _ w hw3
          exact ⟨hl, Or.inr (Or.inl hx), hy⟩
      · obtain ⟨hl, hx, hy⟩ := put_char_shape _ _ _ w hw2
        exact ⟨hl, Or.inr (Or.inr hx), hy⟩
    · rw [if_neg h2] at hw
      rcases List.mem_append.mp hw with hw2 | hw2
      · rcases List.mem_cons.mp hw2 with hw3 | hw3
        · subst hw3
          exact ⟨rfl, Or.inl rfl, rfl⟩
        · rw [List.mem_singleton] at hw3
          subst hw3
          exact ⟨rfl, Or.inr (Or.inl rfl), rfl⟩
      · obtain ⟨hl, hx, hy⟩ := put_char_shape _ _ _ w hw2
        exact ⟨hl, Or.inr (Or.inr hx), hy⟩

/-- Every write of `draw_hud` lands in the fixed HUD row. -/
theorem draw_hud_row (mc : Nat) :
    ∀ w ∈ draw_hud mc, w.y = GRID_Y + GRID_SIZE * CELL_H + 2 := by
  intro w hw
  simp only [draw_hud, List.mem_append] at hw
  rcases hw with hw | hw
  · rw [mem_forRange] at hw
    obtain ⟨i, _, hw⟩ := hw
    rw [List.mem_singleton] at hw
    subst hw
    rfl
  · exact (put_number_shape _ _ _ w hw).2.2

/-- Every write of `draw_cell gx gy` lands in the cell's 3x3 block. -/
theorem draw_cell_writes (b : Board) (gx gy : Nat) :
    ∀ w ∈ draw_cell b gx gy, inBlock gy gx w := by
  intro w hw
  simp only [draw_cell, List.mem_append] at hw
  rcases hw with hw | hw
  · unfold cellAttrBlock at hw
    rw [mem_forRange] at hw
    obtain ⟨dr, hdr, hw⟩ := hw
    rw [mem_forRange] at hw
    obtain ⟨dc, hdc, hw⟩ := hw
    rw [List.mem_singleton] at hw
    subst hw
    unfold CELL_H at hdr
    unfold CELL_W at hdc
    simp only [inBlock, GRID_X, GRID_Y, CELL_W, CELL_H]
    omega
  · by_cases h0 : b gy gx = 0
    · rw [if_pos h0] at hw
      rw [mem_forRange] at hw
      obtain ⟨dr, hdr, hw⟩ := hw
      rw [mem_forRange] at hw
      obtain ⟨dc, hdc, hw⟩ := hw
      rw [List.mem_singleton] at hw
      subst hw
      unfold CELL_H at hdr
      unfold CELL_W at hdc
      simp only [inBlock, GRID_X, GRID_Y, CELL_W, CELL_H]
      omega
    · rw [if_neg h0] at hw
      rw [List.mem_append] at hw
      rcases hw with hw | hw
      · unfold tile_border at hw
        simp only [List.mem_cons, List.mem_nil_iff, or_false] at hw
        rcases hw with h | h | h | h | h | h | h | h <;> subst h <;>
          simp only [inBlock, GRID_X, GRID_Y, CELL_W, CELL_H] <;> omega
      · by_cases h9 : b gy gx ≤ 9
        · rw [if_pos h9] at hw
          rw [List.mem_singleton] at hw
          subst hw
          simp only [inBlock, GRID_X, GRID_Y, CELL_W, CELL_H]
          omega
        · rw [if_neg h9] at hw
          simp only [List.mem_cons, List.mem_nil_iff, or_false] at hw
          rcases hw with h | h | h <;> subst h <;>
            simp only [inBlock, GRID_X, GRID_Y, CELL_W, CELL_H] <;> omega

/-- `draw_cell` repaints every tile of the cell's 3x3 block (witnessed
by the attribute-layer pass). -/
theorem draw_cell_covers (b : Board) (gx gy dr dc : Nat) (hdr : dr < 3) (hdc : dc < 3) :
    ∃ w ∈ draw_cell b gx gy,
      w.x = GRID_X + gx * CELL_W + dc ∧ w.y = GRID_Y + gy * CELL_H + dr := by
  refine ⟨⟨Layer.attr, GRID_X + gx * CELL_W + dc, GRID_Y + gy * CELL_H + dr,
    get_tile_palette (b gy gx)⟩, ?_, rfl, rfl⟩
  simp only [draw_cell, List.mem_append]
  left
  unfold cellAttrBlock
  rw [mem_forRange]
  exact ⟨dr, hdr, by rw [mem_forRange]; exact ⟨dc, hdc, List.mem_singleton.mpr rfl⟩⟩

/-- A write lies in at most one cell block. -/
theorem inBlock_unique {r1 c1 r2 c2 : Nat} {w : Wr}
    (h1 : inBlock r1 c1 w) (h2 : inBlock r2 c2 w) : r1 = r2 ∧ c1 = c2 := by
  unfold inBlock GRID_X GRID_Y CELL_W CELL_H at h1 h2
  omega

/-- Every `try_move` call the action block issues is recorded with the
`game_won` value the block started with. -/
theorem actBranch_events (p : Bool) (s : Sess) :
    ∀ e ∈ (actBranch p s).2, e = s.game_won := by
  intro e he
  simp only [actBranch] at he
  by_cases h1 : p = true
  · rw [if_pos h1] at he
    by_cases h2 : s.g.board s.cursor_row s.cursor_col ≠ EMPTY_TILE
    · rw [if_pos h2] at he
      by_cases h3 : (try_move s.g s.cursor_row s.cursor_col).1 = true
      · rw [if_pos h3] at he
        rw [List.mem_singleton] at he
        exact he
      · rw [if_neg h3] at he
        rw [List.mem_singleton] at he
        exact he
    · rw [if_neg h2] at he
      simp at he
  · rw [if_neg h1] at he
    simp at he

/-- After the action block, either `game_won` is unchanged, or the cell
under the (unchanged) cursor has just become the empty cell. -/
theorem actBranch_won (p : Bool) (s : Sess) :
    (actBranch p s).1.game_won = s.game_won ∨
      (actBranch p s).1.g.board (actBranch p s).1.cursor_row (actBranch p s).1.cursor_col =
        EMPTY_TILE := by
  simp only [actBranch]
  by_cases h1 : p = true
  · rw [if_pos h1]
    by_cases h2 : s.g.board s.cursor_row s.cursor_col ≠ EMPTY_TILE
    · rw [if_pos h2]
      by_cases h3 : (try_move s.g s.cursor_row s.cursor_col).1 = true
      · rw [if_pos h3]
        right
        dsimp only
        have hg : ((s.g.empty_row : Int) - (s.cursor_row : Int) = 0 ∧
            ((s.g.empty_col : Int) - (s.cursor_col : Int) = 1 ∨
              (s.g.empty_col : Int) - (s.cursor_col : Int) = -1)) ∨
          ((s.g.empty_col : Int) - (s.cursor_col : Int) = 0 ∧
            ((s.g.empty_row : Int) - (s.cursor_row : Int) = 1 ∨
              (s.g.empty_row : Int) - (s.cursor_row : Int) = -1)) := by
          by_contra hng
          rw [try_move_eq_neg _ _ _ hng] at h3
          simp at h3
        rw [try_move_eq_pos _ _ _ hg]
        dsimp only
        rw [setCell_same]
      · rw [if_neg h3]
        left
        rfl
    · rw [if_neg h2]
      left
      rfl
  · rw [if_neg h1]
    left
    rfl

/-- The action block never calls `try_move` when the cursor sits on the
empty cell. -/
theorem actBranch_empty_no_event (p : Bool) (s : Sess)
    (hcur : s.g.board s.cursor_row s.cursor_col = EMPTY_TILE) :
    (actBranch p s).2 = [] := by
  simp only [actBranch]
  by_cases h1 : p = true
  · rw [if_pos h1]
    rw [if_neg (by simpa using hcur)]
  · rw [if_neg h1]

/-- All `try_move` calls of one tick that starts with `game_won = 0`
are issued while `game_won = 0`. -/
theorem tick_events (s : Sess) (k : Keys) (h : s.game_won = false) :
    ∀ e ∈ (tick s k).2, e = false := by
  intro e he
  simp only [tick] at he
  by_cases h1 : s.input_cooldown > 0
  · rw [if_pos h1] at he
    simp at he
  · rw [if_neg h1] at he
    set s1 : Sess :=
      if k.up = true ∨ k.down = true ∨ k.left = true ∨ k.right = true then
        { s with
          cursor_row :=
            if k.down = true ∧ (if k.up = true ∧ s.cursor_row > 0 then s.cursor_row - 1
                else s.cursor_row) < GRID_SIZE - 1 then
              (if k.up = true ∧ s.cursor_row > 0 then s.cursor_row - 1 else s.cursor_row) + 1
            else if k.up = true ∧ s.cursor_row > 0 then s.cursor_row - 1 else s.cursor_row,
          cursor_col :=
            if k.right = true ∧ (if k.left = true ∧ s.cursor_col > 0 then s.cursor_col - 1
                else s.cursor_col) < GRID_SIZE - 1 then
              (if k.left = true ∧ s.cursor_col > 0 then s.cursor_col - 1 else s.cursor_col) + 1
            else if k.left = true ∧ s.cursor_col > 0 then s.cursor_col - 1 else s.cursor_col,
          input_cooldown := INPUT_DELAY }
      else s with hs1
    have hs1won : s1.game_won = false := by
      rw [hs1]
      by_cases hk : k.up = true ∨ k.down = true ∨ k.left = true ∨ k.right = true
      · rw [if_pos hk]; exact h
      · rw [if_neg hk]; exact h
    rcases List.mem_append.mp he with he2 | he2
    · rw [actBranch_events k.a s1 e he2]
      exact hs1won
    · rcases actBranch_won k.a s1 with hw | hw
      · rw [actBranch_events k.sel (actBranch k.a s1).1 e he2, hw]
        exact hs1won
      · rw [actBranch_empty_no_event k.sel (actBranch k.a s1).1 hw] at he2
        simp at he2

theorem applyAttr_lastWrite (l : List Wr) :
    ∀ (a : Nat × Nat → Nat) (p : Nat × Nat),
      applyAttr a l p = (lastWrite l p).getD (a p) := by
  induction l with
  | nil => intro a p; rfl
  | cons w ws ih =>
    intro a p
    simp only [applyAttr, lastWrite]
    rw [ih]
    cases hws : lastWrite ws p with
    | some v => rfl
    | none =>
      by_cases hc : w.layer = Layer.attr ∧ p = (w.x, w.y)
      · rw [if_pos hc, if_pos hc]
        rfl
      · rw [if_neg hc, if_neg hc]

theorem lastWrite_append (l1 l2 : List Wr) (p : Nat × Nat) :
    lastWrite (l1 ++ l2) p =
      match lastWrite l2 p with
      | some v => some v
      | none => lastWrite l1 p := by
  induction l1 with
  | nil =>
    show lastWrite l2 p = _
    cases lastWrite l2 p with
    | some v => rfl
    | none => rfl
  | cons w ws ih =>
    rw [List.cons_append]
    simp only [lastWrite]
    rw [ih]
    cases lastWrite l2 p with
    | some v => rfl
    | none => rfl

theorem lastWrite_singleton (w : Wr) (p : Nat × Nat) :
    lastWrite [w] p =
      if w.layer = Layer.attr ∧ p = (w.x, w.y) then some w.v else none := rfl

theorem lastWrite_forRange_none (f : Nat → List Wr) (p : Nat × Nat) :
    ∀ n : Nat, (∀ j, j < n → lastWrite (f j) p = none) →
      lastWrite (forRange n f) p = none := by
  intro n
  induction n with
  | zero => intro _; rfl
  | succ m ih =>
    intro h
    show lastWrite (forRange m f ++ f m) p = none
    rw [lastWrite_append, h m (by omega)]
    exact ih (fun j hj => h j (by omega))

theorem lastWrite_forRange_unique (f : Nat → List Wr) (p : Nat × Nat) (v : Nat) :
    ∀ n k : Nat, k < n → lastWrite (f k) p = some v →
      (∀ j, j < n → j ≠ k → lastWrite (f j) p = none) →
      lastWrite (forRange n f) p = some v := by
  intro n
  induction n with
  | zero => intro k hk _ _; omega
  | succ m ih =>
    intro k hk hsome hnone
    show lastWrite (forRange m f ++ f m) p = some v
    rw [lastWrite_append]
    by_cases hkm : k = m
    · subst hkm
      rw [hsome]
    · rw [hnone m (by omega) (fun he => hkm he.symm)]
      exact ih k (by omega) hsome (fun j hj hjk => hnone j (by omega) hjk)

/-- The last attribute write of a cell's 3x3 attribute pass at any point
of the block is its palette value. -/
theorem lastWrite_cellAttrBlock_in (gx gy pal dr dc : Nat) (hdr : dr < 3) (hdc : dc < 3) :
    lastWrite (cellAttrBlock gx gy pal)
      (GRID_X + gx * CELL_W + dc, GRID_Y + gy * CELL_H + dr) = some pal := by
  unfold cellAttrBlock
  apply lastWrite_forRange_unique _ _ _ CELL_H dr hdr
  · apply lastWrite_forRange_unique _ _ _ CELL_W dc hdc
    · rw [lastWrite_singleton, if_pos ⟨rfl, rfl⟩]
    · intro j hj hjk
      rw [lastWrite_singleton, if_neg]
      intro hcon
      have h2 := hcon.2
      rw [Prod.mk.injEq] at h2
      dsimp only at h2
      have hje : j = dc := by omega
      exact hjk hje
  · intro j hj hjk
    apply lastWrite_forRange_none
    intro j2 hj2
    rw [lastWrite_singleton, if_neg]
    intro hcon
    have h2 := hcon.2
    rw [Prod.mk.injEq] at h2
    dsimp only at h2
    have hje : j = dr := by omega
    exact hjk hje

/-- A cell's attribute pass writes nothing outside its block. -/
theorem lastWrite_cellAttrBlock_out (gx gy pal p1 p2 : Nat)
    (hout : ¬(GRID_X + gx * CELL_W ≤ p1 ∧ p1 < GRID_X + gx * CELL_W + CELL_W ∧
      GRID_Y + gy * CELL_H ≤ p2 ∧ p2 < GRID_Y + gy * CELL_H + CELL_H)) :
    lastWrite (cellAttrBlock gx gy pal) (p1, p2) = none := by
  unfold cellAttrBlock
  apply lastWrite_forRange_none
  intro r hr
  apply lastWrite_forRange_none
  intro c hc
  rw [lastWrite_singleton, if_neg]
  intro hcon
  have h2 := hcon.2
  rw [Prod.mk.injEq] at h2
  dsimp only at h2
  apply hout
  simp only [CELL_W, CELL_H] at hr hc
  simp only [CELL_W, CELL_H, GRID_X, GRID_Y] at h2 ⊢
  omega

/-- The last write of one `win_animation` beat at any point of the
block of cell `(gy, gx)` is that beat's palette for the cell. -/
theorem lastWrite_win_beat (b : Board) (i gy gx dr dc : Nat)
    (hgy : gy < 4) (hgx : gx < 4) (hdr : dr < 3) (hdc : dc < 3) :
    lastWrite (win_beat b i)
      (GRID_X + gx * CELL_W + dc, GRID_Y + gy * CELL_H + dr) =
      some (if i &&& 1 = 1 then get_tile_palette (b gy gx) else 6) := by
  unfold win_beat
  apply lastWrite_forRange_unique _ _ _ GRID_SIZE gy hgy
  · apply lastWrite_forRange_unique _ _ _ GRID_SIZE gx hgx
    · exact lastWrite_cellAttrBlock_in gx gy _ dr dc hdr hdc
    · intro j hj hjk
      apply lastWrite_cellAttrBlock_out
      intro hcon
      simp only [CELL_W, CELL_H, GRID_X, GRID_Y] at hcon
      have hjc : j = gx := by omega
      exact hjk hjc
  · intro j hj hjk
    apply lastWrite_forRange_none
    intro j2 hj2
    apply lastWrite_cellAttrBlock_out
    intro hcon
    simp only [CELL_W, CELL_H, GRID_X, GRID_Y] at hcon
    have hjc : j = gy := by omega
    exact hjk hjc

theorem cellAttrBlock_writes (gx gy pal : Nat) :
    ∀ w ∈ cellAttrBlock gx gy pal, w.layer = Layer.attr ∧ w.v = pal := by
  intro w hw
  unfold cellAttrBlock at hw
  rw [mem_forRange] at hw
  obtain ⟨r, hr, hw⟩ := hw
  rw [mem_forRange] at hw
  obtain ⟨c, hc, hw⟩ := hw
  rw [List.mem_singleton] at hw
  subst hw
  exact ⟨rfl, rfl⟩

theorem win_beat_writes (b : Board) (i : Nat) :
    ∀ w ∈ win_beat b i, w.layer = Layer.attr ∧
      ∃ gy gx, gy < 4 ∧ gx < 4 ∧
        w.v = (if i &&& 1 = 1 then get_tile_palette (b gy gx) else 6) := by
  intro w hw
  unfold win_beat at hw
  rw [mem_forRange] at hw
  obtain ⟨gy, hgy, hw⟩ := hw
  rw [mem_forRange] at hw
  obtain ⟨gx, hgx, hw⟩ := hw
  obtain ⟨hl, hv⟩ := cellAttrBlock_writes _ _ _ w hw
  exact ⟨hl, gy, gx, hgy, hgx, hv⟩

theorem charTile_digit (d : Nat) (hd : d < 10) : charTile (48 + d) = glyph d := by
  unfold charTile glyph
  rw [if_pos (by omega)]
  have he : 48 + d - 48 = d := by omega
  rw [he]

/-! ## Claim theorems -/

/-- Claim C1 (amended): for every board state satisfying the permutation
invariant with the empty cell cached at `(empty_row, empty_col)` and
every target `(r, c)` in `[0,3] x [0,3]`, `try_move r c` returns 1 iff
`(r, c)` is cardinally adjacent to the empty cell; on return 1 it moves
the identifier at `(r, c)` into the old empty cell, sets `(r, c)` to 0,
updates the cached empty position to `(r, c)` and increments the 16-bit
move counter by exactly 1 modulo `2 ^ 16` (wrapping from 65535 to 0);
on return 0 the board, the cached empty position and the move counter
are all unchanged. -/
theorem try_move_spec (g : GameSt) (r c : Nat)
    (hinv : BoardInv g.toB) (hr : r < 4) (hc : c < 4) :
    ((try_move g r c).1 = true ↔ cardAdjacent g.empty_row g.empty_col r c) ∧
      ((try_move g r c).1 = true →
        (try_move g r c).2.1.board g.empty_row g.empty_col = g.board r c ∧
          (try_move g r c).2.1.board r c = 0 ∧
          (∀ r0 c0, ¬(r0 = g.empty_row ∧ c0 = g.empty_col) → ¬(r0 = r ∧ c0 = c) →
            (try_move g r c).2.1.board r0 c0 = g.board r0 c0) ∧
          (try_move g r c).2.1.empty_row = r ∧
          (try_move g r c).2.1.empty_col = c ∧
          (try_move g r c).2.1.move_count = (g.move_count + 1) % 65536) ∧
      ((try_move g r c).1 = false → (try_move g r c).2.1 = g) := by
  obtain ⟨hocc, her, hec, h0⟩ := hinv
  by_cases hg : ((g.empty_row : Int) - (r : Int) = 0 ∧
      ((g.empty_col : Int) - (c : Int) = 1 ∨ (g.empty_col : Int) - (c : Int) = -1)) ∨
    ((g.empty_col : Int) - (c : Int) = 0 ∧
      ((g.empty_row : Int) - (r : Int) = 1 ∨ (g.empty_row : Int) - (r : Int) = -1))
  · rw [try_move_eq_pos g r c hg]
    have hadj : cardAdjacent g.empty_row g.empty_col r c := by
      unfold cardAdjacent; omega
    have hne : ¬(g.empty_row = r ∧ g.empty_col = c) := by
      unfold cardAdjacent at hadj; omega
    refine ⟨by simp [hadj], ?_, by intro h; simp at h⟩
    intro _
    refine ⟨?_, ?_, ?_, rfl, rfl, rfl⟩
    · show setCell _ r c EMPTY_TILE g.empty_row g.empty_col = _
      rw [setCell_other _ _ _ _ _ _ hne, setCell_same]
    · show setCell _ r c EMPTY_TILE r c = 0
      rw [setCell_same]; rfl
    · intro r0 c0 hn1 hn2
      show setCell _ r c EMPTY_TILE r0 c0 = _
      rw [setCell_other _ _ _ _ _ _ hn2, setCell_other _ _ _ _ _ _ hn1]
  · rw [try_move_eq_neg g r c hg]
    have hnadj : ¬cardAdjacent g.empty_row g.empty_col r c := by
      unfold cardAdjacent; omega
    exact ⟨by simp [hnadj], by intro h; simp at h, fun _ => rfl⟩

/-- Counterexample to C1 as stated: with the move counter at its 16-bit
maximum 65535, a successful `try_move` wraps the counter to 0 rather
than incrementing it by exactly 1. -/
theorem try_move_counter_wrap_cex :
    (try_move gMaxCount 3 2).1 = true ∧
      (try_move gMaxCount 3 2).2.1.move_count ≠ gMaxCount.move_count + 1 := by
  decide

/-- Witness for C1 at the solved state and target `(3, 2)`. -/
theorem try_move_spec_witness :
    BoardInv gSolved.toB ∧ (3 : Nat) < 4 ∧ (2 : Nat) < 4 ∧
      ((try_move gSolved 3 2).1 = true ↔ cardAdjacent gSolved.empty_row gSolved.empty_col 3 2) :=
  ⟨by decide, by decide, by decide,
    (try_move_spec gSolved 3 2 (by decide) (by decide) (by decide)).1⟩

/-- Claim C2: the state invariant (each identifier 0..15 exactly once,
empty coordinate on the grid and in sync with the board) holds after
`init_board`, is preserved by every single `shuffle_board` iteration
(accepted, rejected, or boundary-skipped), by whole `shuffle_board`
runs, and by every `try_move` call with an on-grid target (successful
or failed). -/
theorem board_invariant_preserved :
    BoardInv init_board ∧
      (∀ (s : ShuffleState) (d : Nat), BoardInv s.toB → BoardInv (shuffleStep s d).toB) ∧
      (∀ (s : ShuffleState) (draws : List Nat), BoardInv s.toB →
        BoardInv (shuffleRun s draws).toB) ∧
      (∀ (g : GameSt) (r c : Nat), r < 4 → c < 4 → BoardInv g.toB →
        BoardInv ((try_move g r c).2.1).toB) := by
  refine ⟨BoardInv_init, BoardInv_shuffleStep, fun s draws h => BoardInv_shuffleRun draws s h, ?_⟩
  intro g r c hr hc hinv
  by_cases hg : ((g.empty_row : Int) - (r : Int) = 0 ∧
      ((g.empty_col : Int) - (c : Int) = 1 ∨ (g.empty_col : Int) - (c : Int) = -1)) ∨
    ((g.empty_col : Int) - (c : Int) = 0 ∧
      ((g.empty_row : Int) - (r : Int) = 1 ∨ (g.empty_row : Int) - (r : Int) = -1))
  · rw [try_move_eq_pos g r c hg]
    have hne : ¬(g.empty_row = r ∧ g.empty_col = c) := by omega
    exact BoardInv_move g.toB r c hinv hr hc hne
  · rw [try_move_eq_neg g r c hg]
    exact hinv

/-- Witness for C2: one accepted shuffle slide from the solved state
keeps the invariant. -/
theorem board_invariant_preserved_witness :
    BoardInv (ShuffleState.toB ⟨init_board.board, 3, 3, 255⟩) ∧
      BoardInv (shuffleStep ⟨init_board.board, 3, 3, 255⟩ 0).toB :=
  ⟨by decide, board_invariant_preserved.2.1 ⟨init_board.board, 3, 3, 255⟩ 0 (by decide)⟩

/-- Claim C3: for every seed and pseudo-random draw sequence, the board
produced by `shuffle_board` from the solved board can be returned to the
solved arrangement by a finite sequence of legal slides (the shuffled
board is always in the solvable class of the solved state). -/
theorem shuffle_board_solvable (draws : List Nat) :
    Relation.ReflTransGen slides (shuffle_board init_board draws) init_board := by
  have hstart : (⟨init_board.board, init_board.empty_row, init_board.empty_col, 255⟩ :
      ShuffleState).toB = init_board := rfl
  have hinv0 : BoardInv (⟨init_board.board, init_board.empty_row, init_board.empty_col, 255⟩ :
      ShuffleState).toB := by
    rw [hstart]; exact BoardInv_init
  have hfwd := shuffleRun_rtg draws
    ⟨init_board.board, init_board.empty_row, init_board.empty_col, 255⟩ hinv0
  rw [hstart] at hfwd
  exact rtg_slides_symm BoardInv_init hfwd

theorem shuffleAccepted_chain (ds : List Nat) :
    ∀ s : ShuffleState,
      List.Chain' (fun a b => a ^^^ b ≠ 1) (shuffleAccepted s ds) ∧
        (∀ d0, (shuffleAccepted s ds).head? = some d0 → d0 ^^^ s.last_dir ≠ 1) := by
  induction ds with
  | nil => intro s; simp [shuffleAccepted]
  | cons d ds ih =>
    intro s
    rcases shuffleStep_cases s d with he | ⟨hxor, hld, hpos⟩
    · have hcond : (shuffleStep s d).empty_row = s.empty_row ∧
          (shuffleStep s d).empty_col = s.empty_col := by
        rw [he]; exact ⟨rfl, rfl⟩
      simp only [shuffleAccepted, if_pos hcond]
      rw [he]
      exact ih s
    · simp only [shuffleAccepted, if_neg hpos]
      refine ⟨?_, ?_⟩
      · rw [List.chain'_cons']
        refine ⟨?_, (ih (shuffleStep s d)).1⟩
        intro y hy
        have hh := (ih (shuffleStep s d)).2 y (by simpa using hy)
        rw [hld] at hh
        rw [Nat.xor_comm]
        exact hh
      · intro d0 h0
        simp only [List.head?_cons, Option.some.injEq] at h0
        rw [← h0]
        exact hxor

/-- Claim C4: in every `shuffle_board` execution (the local `last_dir`
starts at 0xFF), no accepted move's direction is the exact opposite
(bitwise xor 1) of the immediately preceding accepted move's direction,
and the rejection test compares the drawn direction against the last
*accepted* direction: whenever `(dir ^ last_dir) == 1` the iteration
changes nothing at all. -/
theorem shuffle_no_immediate_reversal :
    (∀ (bs : BoardSt) (draws : List Nat),
      List.Chain' (fun a b => a ^^^ b ≠ 1)
        (shuffleAccepted ⟨bs.board, bs.empty_row, bs.empty_col, 255⟩ draws)) ∧
      (∀ (s : ShuffleState) (d : Nat), (d &&& 3) ^^^ s.last_dir = 1 → shuffleStep s d = s) := by
  constructor
  · intro bs draws
    exact (shuffleAccepted_chain draws ⟨bs.board, bs.empty_row, bs.empty_col, 255⟩).1
  · intro s d h
    simp only [shuffleStep]
    rw [if_pos h]

/-- Witness for C4: a draw whose direction is the exact opposite of the
last accepted direction leaves the shuffle state untouched. -/
theorem shuffle_no_immediate_reversal_witness :
    ((1 &&& 3) ^^^ (⟨init_board.board, 3, 3, 0⟩ : ShuffleState).last_dir = 1) ∧
      shuffleStep ⟨init_board.board, 3, 3, 0⟩ 1 = ⟨init_board.board, 3, 3, 0⟩ :=
  ⟨by decide, shuffle_no_immediate_reversal.2 ⟨init_board.board, 3, 3, 0⟩ 1 (by decide)⟩

/-- Claim C6: on a successful `try_move`, every display write lands in
the 3x3 block of the old empty cell, the 3x3 block of the new empty
cell, or the HUD row; both changed blocks are repainted in full; no
other grid cell's block receives any content- or attribute-layer write;
and a failed `try_move` performs no display writes at all. -/
theorem try_move_redraw_exact (g : GameSt) (r c : Nat)
    (her : g.empty_row < 4) (hec : g.empty_col < 4) (hr : r < 4) (hc : c < 4) :
    ((try_move g r c).1 = true →
      (∀ w ∈ (try_move g r c).2.2,
        inBlock g.empty_row g.empty_col w ∨ inBlock r c w ∨
          w.y = GRID_Y + GRID_SIZE * CELL_H + 2) ∧
        (∀ r0 c0, r0 < 4 → c0 < 4 → ¬(r0 = g.empty_row ∧ c0 = g.empty_col) →
          ¬(r0 = r ∧ c0 = c) → ∀ w ∈ (try_move g r c).2.2, ¬inBlock r0 c0 w) ∧
        (∀ dr dc, dr < 3 → dc < 3 →
          (∃ w ∈ (try_move g r c).2.2,
            w.x = GRID_X + g.empty_col * CELL_W + dc ∧
              w.y = GRID_Y + g.empty_row * CELL_H + dr) ∧
          (∃ w ∈ (try_move g r c).2.2,
            w.x = GRID_X + c * CELL_W + dc ∧ w.y = GRID_Y + r * CELL_H + dr))) ∧
      ((try_move g r c).1 = false → (try_move g r c).2.2 = []) := by
  by_cases hg : ((g.empty_row : Int) - (r : Int) = 0 ∧
      ((g.empty_col : Int) - (c : Int) = 1 ∨ (g.empty_col : Int) - (c : Int) = -1)) ∨
    ((g.empty_col : Int) - (c : Int) = 0 ∧
      ((g.empty_row : Int) - (r : Int) = 1 ∨ (g.empty_row : Int) - (r : Int) = -1))
  · rw [try_move_eq_pos g r c hg]
    refine ⟨fun _ => ⟨?_, ?_, ?_⟩, by intro h; simp at h⟩
    · intro w hw
      rcases List.mem_append.mp hw with hw2 | hw2
      · rcases List.mem_append.mp hw2 with hw3 | hw3
        · exact Or.inl (draw_cell_writes _ _ _ w hw3)
        · exact Or.inr (Or.inl (draw_cell_writes _ _ _ w hw3))
      · exact Or.inr (Or.inr (draw_hud_row _ w hw2))
    · intro r0 c0 hr0 hc0 hn1 hn2 w hw hblock
      rcases List.mem_append.mp hw with hw2 | hw2
      · rcases List.mem_append.mp hw2 with hw3 | hw3
        · have := inBlock_unique hblock (draw_cell_writes _ _ _ w hw3)
          exact hn1 this
        · have := inBlock_unique hblock (draw_cell_writes _ _ _ w hw3)
          exact hn2 this
      · have hy := draw_hud_row _ w hw2
        unfold inBlock GRID_X GRID_Y CELL_W CELL_H at hblock
        unfold GRID_Y GRID_SIZE CELL_H at hy
        omega
    · intro dr dc hdr hdc
      constructor
      · obtain ⟨w, hwmem, hwx, hwy⟩ :=
          draw_cell_covers (setCell (setCell g.board g.empty_row g.empty_col (g.board r c))
            r c EMPTY_TILE) g.empty_col g.empty_row dr dc hdr hdc
        exact ⟨w, List.mem_append.mpr (Or.inl (List.mem_append.mpr (Or.inl hwmem))),
          hwx, hwy⟩
      · obtain ⟨w, hwmem, hwx, hwy⟩ :=
          draw_cell_covers (setCell (setCell g.board g.empty_row g.empty_col (g.board r c))
            r c EMPTY_TILE) c r dr dc hdr hdc
        exact ⟨w, List.mem_append.mpr (Or.inl (List.mem_append.mpr (Or.inr hwmem))),
          hwx, hwy⟩
  · rw [try_move_eq_neg g r c hg]
    exact ⟨by intro h; simp at h, fun _ => rfl⟩

/-- Claim C7: within a session, every `try_move` call the controller
issues happens while `game_won = 0`: once the flag is set (the first
time `check_win` returns 1 after a successful move) no further
`try_move` call is issued until the loop exits and the session is
reinitialised — including on the tick that sets the flag, even when the
A and SELECT buttons are held simultaneously. -/
theorem no_try_move_after_won (s : Sess) (ks : List Keys) :
    ∀ e ∈ (runTicks s ks).2, e = false := by
  induction ks generalizing s with
  | nil =>
    intro e he
    simp [runTicks] at he
  | cons k ks ih =>
    intro e he
    simp only [runTicks] at he
    by_cases hw : s.game_won = true
    · rw [if_pos hw] at he
      simp at he
    · rw [if_neg hw] at he
      rcases List.mem_append.mp he with he2 | he2
      · exact tick_events s k (by simpa using hw) e he2
      · exact ih (tick s k).1 e he2

/-- Witness for C7: a tick that presses A on a movable tile really does
issue a `try_move` call, and it is issued with `game_won = 0`. -/
theorem no_try_move_after_won_witness :
    false ∈ (runTicks sessW [keysA]).2 ∧ false = false :=
  ⟨by decide, no_try_move_after_won sessW [keysA] false (by decide)⟩

/-- Witness for C6: on the successful move of tile 15 into the empty
corner, the top-left tile of the old empty cell's block is repainted. -/
theorem try_move_redraw_exact_witness :
    (try_move gSolved 3 2).1 = true ∧
      (∃ w ∈ (try_move gSolved 3 2).2.2,
        w.x = GRID_X + gSolved.empty_col * CELL_W + 0 ∧
          w.y = GRID_Y + gSolved.empty_row * CELL_H + 0) :=
  ⟨by decide,
    (((try_move_redraw_exact gSolved 3 2 (by decide) (by decide) (by decide)
      (by decide)).1 (by decide)).2.2 0 0 (by decide) (by decide)).1⟩

/-- Claim C5: for every board that is a permutation of `{0..15}`,
`check_win` returns 1 iff the board is exactly
`[[1,2,3,4],[5,6,7,8],[9,10,11,12],[13,14,15,0]]` in row-major order,
and it returns 0 for every board obtained from that arrangement by
swapping the contents of any two distinct cells. -/
theorem check_win_iff_solved (b : Board) (hperm : ∀ v < 16, cellOcc b v = 1) :
    (check_win b = true ↔ isSolvedArrangement b) ∧
      (∀ r1 c1 r2 c2, r1 < 4 → c1 < 4 → r2 < 4 → c2 < 4 → ¬(r1 = r2 ∧ c1 = c2) →
        isSolvedArrangement b → check_win (swapCells b r1 c1 r2 c2) = false) := by
  refine ⟨check_win_true_iff b, ?_⟩
  intro r1 c1 r2 c2 h1 h2 h3 h4 hne hsol
  rw [← Bool.not_eq_true]
  intro hsw
  have hall := (check_win_true_iff _).mp hsw
  have hat : swapCells b r1 c1 r2 c2 r1 c1 = b r2 c2 := by
    simp [swapCells]
  have hv1 := hall r1 h1 c1 h2
  rw [hat] at hv1
  have hv2 := hsol r2 h3 c2 h4
  rw [hv2] at hv1
  by_cases e1 : r1 = 3 ∧ c1 = 3
  · rw [if_pos e1] at hv1
    by_cases e2 : r2 = 3 ∧ c2 = 3
    · rw [if_pos e2] at hv1; omega
    · rw [if_neg e2] at hv1; omega
  · rw [if_neg e1] at hv1
    by_cases e2 : r2 = 3 ∧ c2 = 3
    · rw [if_pos e2] at hv1; omega
    · rw [if_neg e2] at hv1; omega

/-- Witness for C5 at the solved board. -/
theorem check_win_iff_solved_witness :
    (∀ v < 16, cellOcc init_board.board v = 1) ∧
      (check_win init_board.board = true ↔ isSolvedArrangement init_board.board) :=
  ⟨by decide, (check_win_iff_solved init_board.board (by decide)).1⟩

/-- Claim C8: for every value of the 16-bit move counter, `draw_hud`
renders it right-aligned in a 3-tile field of the fixed HUD row: the
ones digit glyph always occupies the rightmost of the three positions,
the hundreds position is a blank tile (not a zero glyph) whenever the
value is below 100, the tens position is a blank tile whenever the
value is below 10, and for values up to 999 the occupied leading
positions carry the correct decimal digit glyphs. -/
theorem draw_hud_right_aligned (mc : Nat) (hmc : mc < 65536) :
    draw_hud mc =
      (forRange 8 fun i => [⟨Layer.attr, GRID_X + i, GRID_Y + GRID_SIZE * CELL_H + 2, 7⟩]) ++
        [⟨Layer.content, GRID_X + 1, GRID_Y + GRID_SIZE * CELL_H + 2, hundredsTile mc⟩,
         ⟨Layer.content, GRID_X + 1 + 1, GRID_Y + GRID_SIZE * CELL_H + 2, tensTile mc⟩,
         ⟨Layer.content, GRID_X + 1 + 2, GRID_Y + GRID_SIZE * CELL_H + 2, glyph (mc % 10)⟩] ∧
      (mc < 100 → hundredsTile mc = T_BLANK) ∧
      (100 ≤ mc → mc ≤ 999 → hundredsTile mc = glyph (mc / 100)) ∧
      (mc < 10 → tensTile mc = T_BLANK) ∧
      (10 ≤ mc → mc ≤ 999 → tensTile mc = glyph (mc / 10 % 10)) := by
  refine ⟨?_, ?_, ?_, ?_, ?_⟩
  · simp only [draw_hud, put_number, put_char]
    by_cases h1 : (mc / 100) % 256 > 0
    · rw [if_pos h1]
      have hh : hundredsTile mc = charTile ((48 + mc / 100 % 256) % 256) := by
        unfold hundredsTile
        rw [if_pos h1]
      have ht : tensTile mc = charTile (48 + mc / 10 % 10) := by
        unfold tensTile
        rw [if_pos (Or.inl h1)]
      have ho : glyph (mc % 10) = charTile (48 + mc % 10) :=
        (charTile_digit _ (by omega)).symm
      rw [hh, ht, ho]
      rfl
    · rw [if_neg h1]
      by_cases h2 : mc / 10 % 10 > 0
      · rw [if_pos h2]
        have hh : hundredsTile mc = T_BLANK := by
          unfold hundredsTile
          rw [if_neg h1]
        have ht : tensTile mc = charTile (48 + mc / 10 % 10) := by
          unfold tensTile
          rw [if_pos (Or.inr h2)]
        have ho : glyph (mc % 10) = charTile (48 + mc % 10) :=
          (charTile_digit _ (by omega)).symm
        rw [hh, ht, ho]
        rfl
      · rw [if_neg h2]
        have hh : hundredsTile mc = T_BLANK := by
          unfold hundredsTile
          rw [if_neg h1]
        have ht : tensTile mc = T_BLANK := by
          unfold tensTile
          rw [if_neg (by omega)]
        have ho : glyph (mc % 10) = charTile (48 + mc % 10) :=
          (charTile_digit _ (by omega)).symm
        rw [hh, ht, ho]
        rfl
  · intro hlt
    unfold hundredsTile
    rw [if_neg (by omega)]
  · intro hge hle
    unfold hundredsTile
    rw [if_pos (by omega)]
    have he1 : (48 + mc / 100 % 256) % 256 = 48 + mc / 100 := by omega
    rw [he1, charTile_digit _ (by omega)]
  · intro hlt
    unfold tensTile
    rw [if_neg (by omega)]
  · intro hge hle
    unfold tensTile
    rw [if_pos (by omega)]
    exact charTile_digit _ (by omega)

/-- Counterexample to C9 as stated: for the cell `(0, 0)` holding the
two-digit identifier 10 (block at `sx = 4`, `sy = 3`), every content
write `draw_cell` issues at the middle-row left tile `(4, 4)` carries
the border piece `T_TILE_L`, never the tens-digit glyph
`T_NUM10_L + (10 - 10) * 2 = 19`, and every content write at the
bottom-right frame tile `(6, 5)` carries the unchanged `T_TILE_BR`. -/
theorem draw_cell_two_digit_cex :
    bTen 0 0 = 10 ∧
      (∀ w ∈ draw_cell bTen 0 0, w.layer = Layer.content → w.x = 4 → w.y = 4 →
        w.v = T_TILE_L) ∧
      T_TILE_L ≠ T_NUM10_L + (bTen 0 0 - 10) * 2 ∧
      (∀ w ∈ draw_cell bTen 0 0, w.layer = Layer.content → w.x = 6 → w.y = 5 →
        w.v = T_TILE_BR) := by
  decide

/-- Claim C9 (amended): for cells holding a two-digit identifier
(10..15), `draw_cell` paints the 3x3 attribute block, then the
eight-tile border frame, and then overwrites the cell's middle row:
the left tile is rewritten with the border piece `T_TILE_L` (it is not
replaced by a glyph), the centre tile gets the tens-half glyph
`T_NUM10_L + (v - 10) * 2`, and the right tile — previously the right
border piece — gets the ones-half glyph; the bottom-right frame tile
stays `T_TILE_BR`.  Single-digit cells (1..9) receive only a single
centred glyph inside an intact frame. -/
theorem draw_cell_layout (b : Board) (gx gy : Nat) :
    (10 ≤ b gy gx → b gy gx ≤ 15 →
      draw_cell b gx gy =
        cellAttrBlock gx gy (get_tile_palette (b gy gx)) ++
          (tile_border (GRID_X + gx * CELL_W) (GRID_Y + gy * CELL_H) ++
            [⟨Layer.content, GRID_X + gx * CELL_W, GRID_Y + gy * CELL_H + 1, T_TILE_L⟩,
             ⟨Layer.content, GRID_X + gx * CELL_W + 1, GRID_Y + gy * CELL_H + 1,
               T_NUM10_L + (b gy gx - 10) * 2⟩,
             ⟨Layer.content, GRID_X + gx * CELL_W + 2, GRID_Y + gy * CELL_H + 1,
               T_NUM10_L + (b gy gx - 10) * 2 + 1⟩])) ∧
      (1 ≤ b gy gx → b gy gx ≤ 9 →
        draw_cell b gx gy =
          cellAttrBlock gx gy (get_tile_palette (b gy gx)) ++
            (tile_border (GRID_X + gx * CELL_W) (GRID_Y + gy * CELL_H) ++
              [⟨Layer.content, GRID_X + gx * CELL_W + 1, GRID_Y + gy * CELL_H + 1,
                T_NUM_START + b gy gx - 1⟩])) := by
  constructor
  · intro h10 h15
    simp only [draw_cell]
    rw [if_neg (by omega), if_neg (by omega)]
  · intro h1 h9
    simp only [draw_cell]
    rw [if_neg (by omega), if_pos (by omega)]

/-- Witness for C9 at the concrete board holding 10 at cell `(0, 0)`. -/
theorem draw_cell_layout_witness :
    10 ≤ bTen 0 0 ∧ bTen 0 0 ≤ 15 ∧
      draw_cell bTen 0 0 =
        cellAttrBlock 0 0 (get_tile_palette (bTen 0 0)) ++
          (tile_border (GRID_X + 0 * CELL_W) (GRID_Y + 0 * CELL_H) ++
            [⟨Layer.content, GRID_X + 0 * CELL_W, GRID_Y + 0 * CELL_H + 1, T_TILE_L⟩,
             ⟨Layer.content, GRID_X + 0 * CELL_W + 1, GRID_Y + 0 * CELL_H + 1,
               T_NUM10_L + (bTen 0 0 - 10) * 2⟩,
             ⟨Layer.content, GRID_X + 0 * CELL_W + 2, GRID_Y + 0 * CELL_H + 1,
               T_NUM10_L + (bTen 0 0 - 10) * 2 + 1⟩]) :=
  ⟨by decide, by decide, (draw_cell_layout bTen 0 0).1 (by decide) (by decide)⟩

/-- Claim C10: `win_animation` performs exactly 6 flash beats; the
even-indexed beats (starting with the first) write the gold palette 6
to every tile of all 16 cell blocks, the odd-indexed beats write each
cell's normal value-derived palette; every beat covers all 16 cells;
after the final (sixth, odd) beat the attribute layer holds the normal
palette — never the gold 6 — for every cell block tile; and the trace
contains only attribute-layer writes, so the content layer is
untouched (the board itself is only read by `win_animation`, never
assigned). -/
theorem win_animation_spec (b : Board) (a : Nat × Nat → Nat) :
    win_animation b = forRange 6 (fun i => win_beat b i) ∧
      (∀ w ∈ win_animation b, w.layer = Layer.attr) ∧
      (∀ i, ∀ w ∈ win_beat b i, i &&& 1 = 0 → w.v = 6) ∧
      (∀ i, ∀ w ∈ win_beat b i, i &&& 1 = 1 →
        ∃ gy gx, gy < 4 ∧ gx < 4 ∧ w.v = get_tile_palette (b gy gx)) ∧
      (∀ i gy gx dr dc, i < 6 → gy < 4 → gx < 4 → dr < 3 → dc < 3 →
        (⟨Layer.attr, GRID_X + gx * CELL_W + dc, GRID_Y + gy * CELL_H + dr,
          if i &&& 1 = 1 then get_tile_palette (b gy gx) else 6⟩ : Wr) ∈ win_beat b i) ∧
      (∀ gy gx dr dc, gy < 4 → gx < 4 → dr < 3 → dc < 3 →
        applyAttr a (win_animation b)
          (GRID_X + gx * CELL_W + dc, GRID_Y + gy * CELL_H + dr) =
          get_tile_palette (b gy gx)) ∧
      (∀ gy gx, gy < 4 → gx < 4 → get_tile_palette (b gy gx) ≠ 6) := by
  refine ⟨rfl, ?_, ?_, ?_, ?_, ?_, ?_⟩
  · intro w hw
    unfold win_animation at hw
    rw [mem_forRange] at hw
    obtain ⟨i, _, hw⟩ := hw
    exact (win_beat_writes b i w hw).1
  · intro i w hw h0
    obtain ⟨-, gy, gx, -, -, hv⟩ := win_beat_writes b i w hw
    rw [hv, if_neg (by omega)]
  · intro i w hw h1
    obtain ⟨-, gy, gx, hgy, hgx, hv⟩ := win_beat_writes b i w hw
    rw [if_pos h1] at hv
    exact ⟨gy, gx, hgy, hgx, hv⟩
  · intro i gy gx dr dc _ hgy hgx hdr hdc
    unfold win_beat
    rw [mem_forRange]
    refine ⟨gy, hgy, ?_⟩
    rw [mem_forRange]
    refine ⟨gx, hgx, ?_⟩
    unfold cellAttrBlock
    rw [mem_forRange]
    refine ⟨dr, hdr, ?_⟩
    rw [mem_forRange]
    exact ⟨dc, hdc, List.mem_singleton.mpr rfl⟩
  · intro gy gx dr dc hgy hgx hdr hdc
    rw [applyAttr_lastWrite]
    have h5 : lastWrite (win_animation b)
        (GRID_X + gx * CELL_W + dc, GRID_Y + gy * CELL_H + dr) =
        some (get_tile_palette (b gy gx)) := by
      show lastWrite (forRange 5 (fun i => win_beat b i) ++ win_beat b 5) _ = _
      rw [lastWrite_append]
      have h6 := lastWrite_win_beat b 5 gy gx dr dc hgy hgx hdr hdc
      rw [if_pos (by decide)] at h6
      rw [h6]
    rw [h5]
    rfl
  · intro gy gx _ _
    unfold get_tile_palette
    split_ifs <;> omega

/-- Witness for C10: after `win_animation` on the solved board, the
top-left tile of cell `(0, 0)` carries that cell's normal palette. -/
theorem win_animation_spec_witness :
    applyAttr (fun _ => 0) (win_animation init_board.board)
      (GRID_X + 0 * CELL_W + 0, GRID_Y + 0 * CELL_H + 0) =
      get_tile_palette (init_board.board 0 0) :=
  (win_animation_spec init_board.board (fun _ => 0)).2.2.2.2.2.1 0 0 0 0
    (by decide) (by decide) (by decide) (by decide)

/-- Witness for C8 at a single-digit counter value. -/
theorem draw_hud_right_aligned_witness :
    (7 : Nat) < 65536 ∧
      draw_hud 7 =
        (forRange 8 fun i => [⟨Layer.attr, GRID_X + i, GRID_Y + GRID_SIZE * CELL_H + 2, 7⟩]) ++
          [⟨Layer.content, GRID_X + 1, GRID_Y + GRID_SIZE * CELL_H + 2, hundredsTile 7⟩,
           ⟨Layer.content, GRID_X + 1 + 1, GRID_Y + GRID_SIZE * CELL_H + 2, tensTile 7⟩,
           ⟨Layer.content, GRID_X + 1 + 2, GRID_Y + GRID_SIZE * CELL_H + 2, glyph (7 % 10)⟩] :=
  ⟨by decide, (draw_hud_right_aligned 7 (by decide)).1⟩

end Puzzle
